import Mathlib

/-!
Verification of the streaming consumption pipeline of the `openai` Go
package: SSE fragment parsing (`StreamReader.Recv`), the chunk pump
(`startChunkPump`), the one-shot `deferredCloser`, the error resolution of
`CreateChatCompletionStreamWithMarkdown`, the raw streaming path
(`streamRaw`), the viewport sizing (`resizeViewport`), and the loader
animation state machine (`internal/loader.go`).

Lines of the event stream are modelled as `List Char`; byte-level helpers
from Go's `bytes`/`strings` packages are re-implemented structurally so
that all definitions compute.
-/

namespace Openai

/-- Whitespace recognised by `bytes.TrimSpace` / `unicode.IsSpace`
(ASCII portion, which is all that occurs in SSE lines). -/
def isSpaceChar (c : Char) : Bool :=
  c = ' ' || c = '\t' || c = '\n' || c = '\r' || c = '\x0b' || c = '\x0c'

/-- `bytes.TrimSpace` on a line of characters: drop whitespace from both
ends. -/
def trimSpace (l : List Char) : List Char :=
  ((l.dropWhile isSpaceChar).reverse.dropWhile isSpaceChar).reverse

/-- `bytes.TrimPrefix`: remove `pre` from the front when it is a prefix,
otherwise return the input unchanged. -/
def trimPrefixOf (pre l : List Char) : List Char :=
  if pre.isPrefixOf l then l.drop pre.length else l

/-- The SSE data-line marker `"data: "`. -/
def dataMarker : List Char := "data: ".toList

/-- The SSE termination sentinel payload `"[DONE]"`. -/
def doneToken : List Char := "[DONE]".toList

/-- Delta of a streaming choice (`ChatCompletionStreamResponse.Choices[i].Delta`). -/
structure StreamDelta where
  Role : String
  Content : String
  deriving DecidableEq, Repr

/-- One choice of a streaming chunk. -/
structure StreamChoice where
  Index : Int
  Delta : StreamDelta
  FinishReason : Option String
  deriving DecidableEq, Repr

/-- `ChatCompletionStreamResponse`: a decoded streaming chunk. -/
structure ChatCompletionStreamResponse where
  ID : String
  Object : String
  Created : Int
  Model : String
  Choices : List StreamChoice
  deriving DecidableEq, Repr

/-- `extractDeltaText`: first choice's delta content, or `""` when the
record carries no choices. -/
def extractDeltaText (resp : ChatCompletionStreamResponse) : String :=
  match resp.Choices with
  | [] => ""
  | c :: _ => c.Delta.Content

/-- An abstract JSON decoder for `json.Unmarshal` (out of scope of the
repository): `none` models a decode failure. -/
def Decoder : Type := List Char → Option ChatCompletionStreamResponse

/-- Result of one `StreamReader.Recv` call. `eof` is `io.EOF` on the
sentinel; `readErr` models a read error from the underlying reader
(including running off the end of the input); `decodeErr` carries the
offending payload. -/
inductive RecvOut where
  | eof
  | readErr
  | decodeErr (payload : List Char)
  | chunk (r : ChatCompletionStreamResponse)
  deriving DecidableEq, Repr

/-- `StreamReader.Recv`: read lines until a non-blank `"data: "` line is
found; return `eof` for the sentinel, a decode error or the decoded
chunk otherwise, together with the lines not yet consumed. -/
def Recv (d : Decoder) : List (List Char) → RecvOut × List (List Char)
  | [] => (.readErr, [])
  | line :: rest =>
    let l := trimSpace line
    if l.isEmpty then Recv d rest
    else if !(dataMarker.isPrefixOf l) then Recv d rest
    else
      let data := trimPrefixOf dataMarker l
      if data = doneToken then (.eof, rest)
      else
        match d data with
        | none => (.decodeErr data, rest)
        | some r => (.chunk r, rest)

/-- Terminal outcome published by the pump on `done` (the `finalErr`
variable of `startChunkPump`). -/
inductive PumpErr where
  | createErr
  | streamReadErr
  | streamDecodeErr (payload : List Char)
  | canceled
  deriving DecidableEq, Repr

/-- The receive loop of `startChunkPump`, without cancellation (the
cancellation-free schedule): returns the forwarded fragment texts in
order, and the terminal outcome (`none` on graceful EOF). Fused with
`Recv` structurally; `pumpRun_recv_step` below proves it is exactly the
`for { Recv; ... }` loop. -/
def pumpRun (d : Decoder) : List (List Char) → List String × Option PumpErr
  | [] => ([], some .streamReadErr)
  | line :: rest =>
    let l := trimSpace line
    if l.isEmpty then pumpRun d rest
    else if !(dataMarker.isPrefixOf l) then pumpRun d rest
    else
      let data := trimPrefixOf dataMarker l
      if data = doneToken then ([], none)
      else
        match d data with
        | none => ([], some (.streamDecodeErr data))
        | some r =>
          let text := extractDeltaText r
          let out := pumpRun d rest
          (if text = "" then out.1 else text :: out.1, out.2)

/-- `pumpRun` is the loop that repeatedly calls `Recv` and dispatches on
its result exactly as the goroutine body of `startChunkPump` does. -/
theorem pumpRun_recv_step (d : Decoder) (ls : List (List Char)) :
    pumpRun d ls =
      match Recv d ls with
      | (.eof, _) => ([], none)
      | (.readErr, _) => ([], some .streamReadErr)
      | (.decodeErr p, _) => ([], some (.streamDecodeErr p))
      | (.chunk r, rest) =>
        let text := extractDeltaText r
        let out := pumpRun d rest
        (if text = "" then out.1 else text :: out.1, out.2) := by
  induction ls with
  | nil => rfl
  | cons line rest ih =>
    simp only [pumpRun, Recv]
    by_cases h1 : (trimSpace line).isEmpty
    · simp [h1, ih]
    · by_cases h2 : dataMarker.isPrefixOf (trimSpace line)
      · by_cases h3 : trimPrefixOf dataMarker (trimSpace line) = doneToken
        · simp [h1, h2, h3]
        · cases hd : d (trimPrefixOf dataMarker (trimSpace line)) with
          | none => simp [h1, h2, h3, hd]
          | some r => simp [h1, h2, h3, hd]
      · simp [h1, h2, ih]

/-- A line the parser skips: blank after trimming, or not carrying the
`"data: "` marker. -/
def skippableLine (l : List Char) : Bool :=
  (trimSpace l).isEmpty || !(dataMarker.isPrefixOf (trimSpace l))

/-- The payload of a data line: the trimmed line with the marker removed. -/
def payloadOf (l : List Char) : List Char :=
  trimPrefixOf dataMarker (trimSpace l)

/-- A line of a well-formed event-stream body: skippable, or a data line
whose payload is not the sentinel and decodes successfully. -/
def goodLine (d : Decoder) (l : List Char) : Prop :=
  skippableLine l = true ∨
    (skippableLine l = false ∧ payloadOf l ≠ doneToken ∧ (d (payloadOf l)).isSome = true)

instance goodLineDecidable (d : Decoder) (l : List Char) : Decidable (goodLine d l) := by
  unfold goodLine
  exact inferInstance

/-- The non-empty delta contents of the body's data lines, in arrival
order. -/
def expectedDeltas (d : Decoder) (ls : List (List Char)) : List String :=
  ls.filterMap fun l =>
    if skippableLine l then none
    else
      match d (payloadOf l) with
      | none => none
      | some r => if extractDeltaText r = "" then none else some (extractDeltaText r)

/-- The sentinel line ending a well-formed event stream. -/
def sentinelLine : List Char := "data: [DONE]".toList

theorem pumpRun_cons_skip (d : Decoder) (l : List Char) (ls : List (List Char))
    (h : skippableLine l = true) : pumpRun d (l :: ls) = pumpRun d ls := by
  by_cases he : (trimSpace l).isEmpty
  · simp [pumpRun, he]
  · have hp : dataMarker.isPrefixOf (trimSpace l) = false := by
      simp only [skippableLine, Bool.or_eq_true_iff] at h
      rcases h with h | h
      · exact absurd h he
      · simpa using h
    simp [pumpRun, he, hp]

theorem pumpRun_cons_data (d : Decoder) (l : List Char) (ls : List (List Char))
    (r : ChatCompletionStreamResponse)
    (h : skippableLine l = false) (hdone : payloadOf l ≠ doneToken)
    (hd : d (payloadOf l) = some r) :
    pumpRun d (l :: ls) =
      (if extractDeltaText r = "" then (pumpRun d ls).1
       else extractDeltaText r :: (pumpRun d ls).1, (pumpRun d ls).2) := by
  have he : (trimSpace l).isEmpty = false := by
    simp only [skippableLine, Bool.or_eq_false_iff] at h
    exact h.1
  have hp : dataMarker.isPrefixOf (trimSpace l) = true := by
    simp only [skippableLine, Bool.or_eq_false_iff] at h
    simpa using h.2
  have hd' : d (trimPrefixOf dataMarker (trimSpace l)) = some r := hd
  have hdone' : (trimPrefixOf dataMarker (trimSpace l) = doneToken) = False := by
    simpa [payloadOf] using hdone
  simp [pumpRun, he, hp, hdone', hd']

theorem expectedDeltas_cons_skip (d : Decoder) (l : List Char)
    (ls : List (List Char)) (h : skippableLine l = true) :
    expectedDeltas d (l :: ls) = expectedDeltas d ls := by
  simp only [expectedDeltas, List.filterMap_cons, h, if_true]

theorem expectedDeltas_cons_data (d : Decoder) (l : List Char)
    (ls : List (List Char)) (r : ChatCompletionStreamResponse)
    (h : skippableLine l = false) (hd : d (payloadOf l) = some r) :
    expectedDeltas d (l :: ls) =
      if extractDeltaText r = "" then expectedDeltas d ls
      else extractDeltaText r :: expectedDeltas d ls := by
  simp only [expectedDeltas, List.filterMap_cons, h, Bool.false_eq_true, if_false, hd]
  by_cases ht : extractDeltaText r = "" <;> simp [ht]

/-- C1: for every well-formed event-stream input ending in the sentinel
line `"data: [DONE]"`, the pump forwards exactly the sequence of
non-empty delta contents in arrival order and terminates with no error;
blank and non-`"data: "` lines are skipped, and decoded records with no
choices or empty delta content yield no fragment and no error. -/
theorem pump_forwards_nonempty_deltas (d : Decoder) (body : List (List Char))
    (h : ∀ l ∈ body, goodLine d l) :
    pumpRun d (body ++ [sentinelLine]) = (expectedDeltas d body, none) := by
  induction body with
  | nil =>
    have hsent : pumpRun d [sentinelLine] = ([], none) := by rfl
    simpa [expectedDeltas] using hsent
  | cons l rest ih =>
    have hrest : ∀ x ∈ rest, goodLine d x := fun x hx => h x (by simp [hx])
    have ih' := ih hrest
    rcases h l (by simp) with hskip | ⟨hdata, hdone, hdec⟩
    · rw [List.cons_append, pumpRun_cons_skip d l _ hskip,
        expectedDeltas_cons_skip d l _ hskip, ih']
    · obtain ⟨r, hr⟩ := Option.isSome_iff_exists.mp hdec
      rw [List.cons_append, pumpRun_cons_data d l _ r hdata hdone hr,
        expectedDeltas_cons_data d l _ r hdata hr, ih']

/-- Proof-of-life for C1 on a concrete stream: one content line, a blank
line, a keep-alive comment line, a record without choices, and the
sentinel; exactly the fragment `"Hi"` is forwarded and no error raised. -/
theorem pump_forwards_nonempty_deltas_witness :
    pumpRun
      (fun p =>
        if p = "payload-hi".toList then
          some { ID := "1", Object := "chat.completion.chunk", Created := 0,
                 Model := "m",
                 Choices := [{ Index := 0,
                               Delta := { Role := "", Content := "Hi" },
                               FinishReason := none }] }
        else if p = "payload-role".toList then
          some { ID := "1", Object := "chat.completion.chunk", Created := 0,
                 Model := "m", Choices := [] }
        else none)
      (["data: payload-hi".toList, "   ".toList, ": keep-alive".toList,
        "data: payload-role".toList] ++ [sentinelLine]) = (["Hi"], none) := by
  rw [pump_forwards_nonempty_deltas _ _ (by decide)]
  decide

/-! ## deferredCloser (part_001, lines 75-108)

The mutex only serialises `Set`/`Close`; a run is a sequence of such
serialised calls, modelled as a list of operations. Registered close
functions are identified by a `Nat` id (the program always registers a
non-nil function); each operation reports the ids it executed. -/

/-- The `deferredCloser` struct: the `closed` one-shot flag and the
registered close function (by id). -/
structure DeferredCloser where
  closed : Bool
  fn : Option Nat
  deriving DecidableEq, Repr

/-- The zero value `&deferredCloser{}`. -/
def DeferredCloser.init : DeferredCloser := { closed := false, fn := none }

/-- `deferredCloser.Set`: registers the close function; if `Close` was
already called the function runs immediately. Returns the new state and
the ids executed during the call. -/
def DeferredCloser.Set (d : DeferredCloser) (f : Nat) : DeferredCloser × List Nat :=
  if d.closed then (d, [f]) else ({ d with fn := some f }, [])

/-- `deferredCloser.Close`: executes the registered function exactly once;
subsequent calls are no-ops. Returns the new state and the ids executed
during the call. -/
def DeferredCloser.Close (d : DeferredCloser) : DeferredCloser × List Nat :=
  if d.closed then (d, [])
  else ({ closed := true, fn := d.fn }, d.fn.toList)

/-- One serialised call on the closer. -/
inductive DCOp where
  | set (f : Nat)
  | close
  deriving DecidableEq, Repr

/-- Apply one call to the (state, executed-ids trace) pair. -/
def dcStep (st : DeferredCloser × List Nat) (op : DCOp) : DeferredCloser × List Nat :=
  match op with
  | .set f => ((st.1.Set f).1, st.2 ++ (st.1.Set f).2)
  | .close => (st.1.Close.1, st.2 ++ st.1.Close.2)

/-- Run a sequence of calls from a given state and trace. -/
def dcRunFrom (st : DeferredCloser × List Nat) (ops : List DCOp) :
    DeferredCloser × List Nat :=
  ops.foldl dcStep st

/-- Run a sequence of calls on a fresh closer. -/
def dcRun (ops : List DCOp) : DeferredCloser × List Nat :=
  dcRunFrom (DeferredCloser.init, []) ops

/-- Does the call sequence contain a `Set`? -/
def hasSetOp (ops : List DCOp) : Bool :=
  ops.any fun op => match op with | .set _ => true | .close => false

/-- Does the call sequence contain a `Close`? -/
def hasCloseOp (ops : List DCOp) : Bool :=
  ops.any fun op => match op with | .set _ => false | .close => true

theorem dcRunFrom_allSets (p : List DCOp) :
    ∀ st : DeferredCloser × List Nat, st.1.closed = false →
    (∀ op ∈ p, ∃ f, op = DCOp.set f) →
    (dcRunFrom st p).1.closed = false ∧ (dcRunFrom st p).2 = st.2 ∧
      ((dcRunFrom st p).1.fn.isSome = true ↔
        (hasSetOp p = true ∨ st.1.fn.isSome = true)) := by
  induction p with
  | nil => intro st hc _; simp [dcRunFrom, hasSetOp, hc]
  | cons op rest ih =>
    intro st hc h
    obtain ⟨f, rfl⟩ := h op (by simp)
    have hstep : dcStep st (DCOp.set f) = ({ st.1 with fn := some f }, st.2) := by
      simp [dcStep, DeferredCloser.Set, hc]
    have := ih ({ st.1 with fn := some f }, st.2) (by simpa using hc)
      (fun x hx => h x (by simp [hx]))
    simp only [dcRunFrom, List.foldl_cons, hstep] at *
    refine ⟨this.1, this.2.1, ?_⟩
    rw [this.2.2]
    simp [hasSetOp]

theorem dcRunFrom_allCloses (p : List DCOp) :
    ∀ st : DeferredCloser × List Nat, st.1.fn = none →
    (∀ op ∈ p, op = DCOp.close) →
    (dcRunFrom st p).2 = st.2 ∧ (dcRunFrom st p).1.fn = none ∧
      ((dcRunFrom st p).1.closed = true ↔ (st.1.closed = true ∨ p ≠ [])) := by
  induction p with
  | nil => intro st hf _; simp [dcRunFrom, hf]
  | cons op rest ih =>
    intro st hf h
    obtain ⟨⟨c, f⟩, tr⟩ := st
    simp only at hf
    subst hf
    have hop : op = DCOp.close := h op (by simp)
    subst hop
    have hstep : dcStep (⟨c, none⟩, tr) DCOp.close =
        ({ closed := true, fn := none }, tr) := by
      cases c <;> simp [dcStep, DeferredCloser.Close]
    have := ih ({ closed := true, fn := none }, tr) rfl
      (fun x hx => h x (by simp [hx]))
    simp only [dcRunFrom, List.foldl_cons, hstep] at *
    exact ⟨this.1, this.2.1, by rw [this.2.2]; simp⟩

theorem hasSetOp_false_all_close (p : List DCOp) (h : hasSetOp p = false) :
    ∀ op ∈ p, op = DCOp.close := by
  intro op hop
  cases op with
  | set f =>
    exfalso
    simp only [hasSetOp, List.any_eq_false] at h
    simpa using h _ hop
  | close => rfl

theorem hasCloseOp_false_all_set (p : List DCOp) (h : hasCloseOp p = false) :
    ∀ op ∈ p, ∃ f, op = DCOp.set f := by
  intro op hop
  cases op with
  | set f => exact ⟨f, rfl⟩
  | close =>
    exfalso
    simp only [hasCloseOp, List.any_eq_false] at h
    simpa using h _ hop

/-- C2: once at least one `Set` and at least one `Close` have occurred —
i.e. at the end of the minimal prefix of the call sequence containing
both — the registered close function has executed exactly once; a
`Close` on a closed closer is a no-op; a `Set` issued after a `Close`
runs the function immediately. -/
theorem deferredCloser_close_once :
    (∀ (p : List DCOp) (op : DCOp),
      ¬(hasSetOp p = true ∧ hasCloseOp p = true) →
      hasSetOp (p ++ [op]) = true → hasCloseOp (p ++ [op]) = true →
      ((dcRun (p ++ [op])).2).length = 1) ∧
    (∀ d : DeferredCloser, d.closed = true → d.Close = (d, [])) ∧
    (∀ (d : DeferredCloser) (f : Nat), d.closed = true → d.Set f = (d, [f])) := by
  refine ⟨?_, ?_, ?_⟩
  · intro p op hnot hset hclose
    have happ : dcRun (p ++ [op]) = dcStep (dcRun p) op := by
      simp [dcRun, dcRunFrom]
    cases op with
    | close =>
      have hsp : hasSetOp p = true := by
        simpa [hasSetOp] using hset
      have hcp : hasCloseOp p = false := by
        by_contra hcp
        exact hnot ⟨hsp, by simpa using Bool.not_eq_false _ |>.mp hcp⟩
      have hall := hasCloseOp_false_all_set p hcp
      have hrun := dcRunFrom_allSets p (DeferredCloser.init, []) rfl hall
      have hfn : (dcRun p).1.fn.isSome = true := by
        exact (hrun.2.2).mpr (Or.inl hsp)
      obtain ⟨k, hk⟩ := Option.isSome_iff_exists.mp hfn
      have hclosed : (dcRun p).1.closed = false := hrun.1
      have hex : (dcRun p).2 = [] := hrun.2.1
      rw [happ]
      simp [dcStep, DeferredCloser.Close, hclosed, hex, hk]
    | set f =>
      have hcp : hasCloseOp p = true := by
        simpa [hasCloseOp] using hclose
      have hsp : hasSetOp p = false := by
        by_contra hsp
        exact hnot ⟨by simpa using Bool.not_eq_false _ |>.mp hsp, hcp⟩
      have hall := hasSetOp_false_all_close p hsp
      have hrun := dcRunFrom_allCloses p (DeferredCloser.init, []) rfl hall
      have hne : p ≠ [] := by
        intro hp
        rw [hp] at hcp
        simp [hasCloseOp] at hcp
      have hclosed : (dcRun p).1.closed = true := hrun.2.2.mpr (Or.inr hne)
      have hex : (dcRun p).2 = [] := hrun.1
      rw [happ]
      simp [dcStep, DeferredCloser.Set, hclosed, hex]
  · intro d hd
    simp [DeferredCloser.Close, hd]
  · intro d f hd
    simp [DeferredCloser.Set, hd]

/-- Proof-of-life for C2: in the run `[Close, Close, Set 7]` the minimal
prefix containing both kinds is the whole run and exactly one execution
(of function 7) happens; a `Close` on a closed closer is a no-op; and a
`Set` after `Close` fires immediately. -/
theorem deferredCloser_close_once_witness :
    ((dcRun ([DCOp.close, DCOp.close] ++ [DCOp.set 7])).2).length = 1 ∧
    DeferredCloser.Close { closed := true, fn := some 3 } =
      ({ closed := true, fn := some 3 }, []) ∧
    DeferredCloser.Set { closed := true, fn := none } 7 =
      ({ closed := true, fn := none }, [7]) :=
  ⟨deferredCloser_close_once.1 [DCOp.close, DCOp.close] (DCOp.set 7)
      (by decide) (by decide) (by decide),
    deferredCloser_close_once.2.1 _ rfl,
    deferredCloser_close_once.2.2 _ 7 rfl⟩

/-! ## Error resolution of CreateChatCompletionStreamWithMarkdown
(part_001, lines 227-250) -/

/-- Go `error` values relevant to the pipeline; `canceled` is
`context.Canceled`. -/
inductive GoErr where
  | canceled
  | deadlineExceeded
  | errMsg (s : String)
  deriving DecidableEq, Repr

/-- `errors.Is(err, context.Canceled)`. -/
def errorsIsCanceled : GoErr → Bool
  | .canceled => true
  | _ => false

/-- The tail of `CreateChatCompletionStreamWithMarkdown`: reconcile the
render loop's error (`uiErr`) with the pump's terminal outcome
(`pumpErr`). -/
def resolveStreamErrors (uiErr pumpErr : Option GoErr) : Option GoErr :=
  match uiErr with
  | some e => if errorsIsCanceled e && pumpErr.isSome then pumpErr else some e
  | none => pumpErr

/-- C3: the pump's error is returned when the loop's error is a
cancellation and the pump's error is non-nil; otherwise the loop's
non-nil error is returned; with no loop error the pump's outcome is
returned, so the call succeeds when neither reports an error. -/
theorem resolveStreamErrors_policy :
    (∀ (e p : GoErr), errorsIsCanceled e = true →
      resolveStreamErrors (some e) (some p) = some p) ∧
    (∀ (e : GoErr) (op : Option GoErr), errorsIsCanceled e = false →
      resolveStreamErrors (some e) op = some e) ∧
    (∀ e : GoErr, resolveStreamErrors (some e) none = some e) ∧
    (∀ op : Option GoErr, resolveStreamErrors none op = op) := by
  refine ⟨?_, ?_, ?_, ?_⟩
  · intro e p he; simp [resolveStreamErrors, he]
  · intro e op he; simp [resolveStreamErrors, he]
  · intro e; simp [resolveStreamErrors]
  · intro op; simp [resolveStreamErrors]

/-- Proof-of-life for C3 at concrete errors: a canceled loop error defers
to the pump's network error, a render error wins over the pump, and two
clean outcomes yield success. -/
theorem resolveStreamErrors_policy_witness :
    resolveStreamErrors (some .canceled) (some (.errMsg "network down")) =
      some (.errMsg "network down") ∧
    resolveStreamErrors (some (.errMsg "render failed")) (some (.errMsg "network down")) =
      some (.errMsg "render failed") ∧
    resolveStreamErrors none none = none :=
  ⟨resolveStreamErrors_policy.1 .canceled (.errMsg "network down") rfl,
    resolveStreamErrors_policy.2.1 (.errMsg "render failed") _ rfl,
    resolveStreamErrors_policy.2.2.2 none⟩

/-! ## Finishing of streamWithViewport (internal/markdown.go, lines 98-117) -/

/-- `strings.HasSuffix(s, "\n")`. -/
def hasNewlineSuffix (s : String) : Bool := s.data.getLast? = some '\n'

/-- What `streamWithViewport` hands outward after the program loop ends:
the returned error, the bytes written to the durable sink `w`, and
whether the transient viewport frame was cleared from the UI writer. -/
structure ViewportFinish where
  retErr : Option GoErr
  durableOut : String
  uiCleared : Bool
  deriving DecidableEq, Repr

/-- The tail of `streamWithViewport` as a function of the model state when
the loop exits: on `model.err != nil` the error is returned at once —
no clear, no durable write; otherwise the frame is cleared (when a last
view exists) and the rendered markdown, newline-terminated, is written
once to the durable sink. -/
def finishStreamWithViewport (err : Option GoErr) (rendered lastView : String) :
    ViewportFinish :=
  match err with
  | some e => { retErr := some e, durableOut := "", uiCleared := false }
  | none =>
    { retErr := none,
      durableOut :=
        if rendered = "" then ""
        else if hasNewlineSuffix rendered then rendered else rendered ++ "\n",
      uiCleared := lastView != "" }

/-- C4 counterexample: with accumulated rendered text `"partial"` and a
fatal render error, the call returns only the error and writes nothing
to the durable sink — the partial output is discarded, contradicting
the claim that it remains available to the caller. -/
theorem finishStreamWithViewport_discards_partial :
    ("partial" ≠ "") ∧
    finishStreamWithViewport (some (.errMsg "render failed")) "partial" "frame" =
      { retErr := some (.errMsg "render failed"), durableOut := "", uiCleared := false } :=
  ⟨by decide, rfl⟩

/-- C4 amended: on a fatal error the call reports exactly that error and
delivers none of the accumulated text to the durable sink (and does not
clear the transient frame); partial output is discarded rather than
made available to the caller. -/
theorem finishStreamWithViewport_error_path (e : GoErr) (rendered lastView : String) :
    finishStreamWithViewport (some e) rendered lastView =
      { retErr := some e, durableOut := "", uiCleared := false } := rfl

/-! ## Raw streaming (internal/markdown.go, lines 41-70) -/

/-- The sequence of results the `next` source yields over a run. -/
inductive NextItem where
  | item (t : String)
  | eof
  | fail (e : GoErr)
  deriving DecidableEq, Repr

/-- `streamRaw`: write chunks to the sink as they arrive; `io.EOF` ends
the run with success, any other source error or a write error is
returned. `wr` models `io.WriteString`'s failure behaviour; the first
component of the result is the text actually written to the sink. -/
def streamRaw (wr : String → Option GoErr) : List NextItem → String × Option GoErr
  | [] => ("", none)
  | .eof :: _ => ("", none)
  | .fail e :: _ => ("", some e)
  | .item t :: rest =>
    if t = "" then streamRaw wr rest
    else
      match wr t with
      | some werr => ("", some werr)
      | none =>
        let out := streamRaw wr rest
        (t ++ out.1, out.2)

/-- `StreamOptions` (function-typed fields `Cancel`/`UIWriter` omitted). -/
structure StreamOptions where
  Raw : Bool
  WordWrap : Int
  deriving DecidableEq, Repr

/-- `StreamMarkdown`: dispatch on `opts.Raw` between the raw path and the
Bubble Tea viewport path, whose outcome is an opaque parameter here. -/
def StreamMarkdown (opts : StreamOptions) (wr : String → Option GoErr)
    (src : List NextItem) (viewportOutcome : String × Option GoErr) :
    String × Option GoErr :=
  if opts.Raw then streamRaw wr src else viewportOutcome

/-- The concatenation of the non-empty chunk texts, in order. -/
def concatNonEmpty (chunks : List String) : String :=
  (chunks.filter fun t => t != "").foldr (fun a b => a ++ b) ""

theorem streamRaw_items (wr : String → Option GoErr) (chunks : List String)
    (rest : List NextItem) (h : ∀ t ∈ chunks, t ≠ "" → wr t = none) :
    streamRaw wr (chunks.map NextItem.item ++ rest) =
      (concatNonEmpty chunks ++ (streamRaw wr rest).1, (streamRaw wr rest).2) := by
  induction chunks with
  | nil => simp [concatNonEmpty]
  | cons t ts ih =>
    have hts : ∀ u ∈ ts, u ≠ "" → wr u = none := fun u hu => h u (by simp [hu])
    by_cases ht : t = ""
    · subst ht
      simp only [List.map_cons, List.cons_append, streamRaw, if_pos rfl,
        List.append_eq, if_true]
      rw [ih hts]
      simp [concatNonEmpty]
    · have hw : wr t = none := h t (by simp) ht
      simp only [List.map_cons, List.cons_append, streamRaw, if_neg ht, hw,
        List.append_eq]
      rw [ih hts]
      simp only [concatNonEmpty, List.filter_cons]
      have htb : (t != "") = true := by simpa using ht
      simp [htb, String.append_assoc]

/-- C6: with `Raw` set, `StreamMarkdown` writes each fragment's text
directly to the sink in arrival order (no loader, no styling): for a
finite chunk sequence ending in EOF the bytes written are the
concatenation of the non-empty chunk texts and the call returns nil; a
non-EOF source error, or a write error, is returned instead (keeping
whatever was already written). -/
theorem streamMarkdown_raw_mode (opts : StreamOptions) (hraw : opts.Raw = true)
    (wr : String → Option GoErr) (vp : String × Option GoErr) :
    (∀ chunks : List String, (∀ t ∈ chunks, t ≠ "" → wr t = none) →
      StreamMarkdown opts wr (chunks.map NextItem.item ++ [NextItem.eof]) vp =
        (concatNonEmpty chunks, none)) ∧
    (∀ (chunks : List String) (e : GoErr), (∀ t ∈ chunks, t ≠ "" → wr t = none) →
      StreamMarkdown opts wr (chunks.map NextItem.item ++ [NextItem.fail e]) vp =
        (concatNonEmpty chunks, some e)) ∧
    (∀ (pre : List String) (t : String) (post : List NextItem) (we : GoErr),
      (∀ u ∈ pre, u ≠ "" → wr u = none) → t ≠ "" → wr t = some we →
      StreamMarkdown opts wr (pre.map NextItem.item ++ NextItem.item t :: post) vp =
        (concatNonEmpty pre, some we)) := by
  refine ⟨?_, ?_, ?_⟩
  · intro chunks h
    simp only [StreamMarkdown, hraw, if_true]
    rw [streamRaw_items wr chunks _ h]
    simp [streamRaw]
  · intro chunks e h
    simp only [StreamMarkdown, hraw, if_true]
    rw [streamRaw_items wr chunks _ h]
    simp [streamRaw]
  · intro pre t post we h ht hw
    simp only [StreamMarkdown, hraw, if_true]
    rw [streamRaw_items wr pre _ h]
    simp [streamRaw, if_neg ht, hw]

/-- Proof-of-life for C6 on the spec's scenario: chunks `"Hi"`, `""`,
`" there"` followed by EOF write exactly `"Hi there"` and succeed. -/
theorem streamMarkdown_raw_mode_witness :
    StreamMarkdown { Raw := true, WordWrap := 120 } (fun _ => none)
      (["Hi", "", " there"].map NextItem.item ++ [NextItem.eof]) ("", none) =
      ("Hi there", none) := by
  rw [(streamMarkdown_raw_mode { Raw := true, WordWrap := 120 } rfl
    (fun _ => none) ("", none)).1 ["Hi", "", " there"] (fun t _ _ => rfl)]
  decide

/-! ## Viewport sizing (internal/markdown.go, lines 279-331) -/

/-- `contentLineCount`: `0` for empty rendered text, otherwise
`strings.Count(rendered, "\n")`. -/
def contentLineCount (rendered : String) : Nat :=
  if rendered = "" then 0 else rendered.data.count '\n'

/-- `resizeViewport` as a function of the stored window height, the
previous viewport height, and the rendered content; returns the new
viewport height. -/
def resizeViewport (windowHeight prevHeight : Int) (rendered : String) : Int :=
  let contentHeight : Int := (contentLineCount rendered : Int)
  let height := if windowHeight = 0 then prevHeight else windowHeight
  let height :=
    if 0 < contentHeight ∧ (height = 0 ∨ contentHeight < height) then contentHeight
    else height
  if height < 1 then 1 else height

/-- `strings.TrimRightFunc(s, unicode.IsSpace)`. -/
def trimRightSpace (s : String) : String :=
  ⟨(s.data.reverse.dropWhile isSpaceChar).reverse⟩

/-- `appendChunk` stores `strings.TrimRightFunc(rendered, unicode.IsSpace) + "\n"`
as the rendered content before resizing. -/
def appendChunkRendered (renderOutput : String) : String :=
  trimRightSpace renderOutput ++ "\n"

/-- C7 counterexample: on a window-resize with window height 10 and empty
rendered content, the code sets the viewport height to 10, not to
`min 10 (line count) = 0` clamped to `1` as the claim requires. -/
theorem resizeViewport_not_min_counterexample :
    resizeViewport 10 0 "" = 10 ∧
    max (min (10 : Int) ((contentLineCount "" : Int))) 1 = 1 ∧
    resizeViewport 10 0 "" ≠ max (min (10 : Int) ((contentLineCount "" : Int))) 1 := by
  refine ⟨by decide, by decide, by decide⟩

/-- C7 amended: when the stored window height is at least 1 and the
rendered content has at least one line, the viewport height is set to
the lesser of the window height and the content line count; the height
is never set below 1 for any window height and content; and on the
fragment-append path the rendered content (trimmed and
newline-terminated) always has at least one line, so the lesser-of rule
applies there unconditionally. -/
theorem resizeViewport_min_rule :
    (∀ (wh ph : Int) (rendered : String), 1 ≤ wh →
      1 ≤ (contentLineCount rendered : Int) →
      resizeViewport wh ph rendered = min wh (contentLineCount rendered : Int)) ∧
    (∀ (wh ph : Int) (rendered : String), 1 ≤ resizeViewport wh ph rendered) ∧
    (∀ renderOutput : String,
      1 ≤ (contentLineCount (appendChunkRendered renderOutput) : Int)) := by
  refine ⟨?_, ?_, ?_⟩
  · intro wh ph rendered h1 h2
    have hwh : ¬ wh = 0 := by omega
    simp only [resizeViewport, if_neg hwh]
    by_cases hlt : (contentLineCount rendered : Int) < wh
    · have hc : 0 < (contentLineCount rendered : Int) ∧
          (wh = 0 ∨ (contentLineCount rendered : Int) < wh) := by
        constructor
        · omega
        · exact Or.inr hlt
      rw [if_pos hc]
      have : ¬ (contentLineCount rendered : Int) < 1 := by omega
      rw [if_neg this]
      omega
    · have hc : ¬(0 < (contentLineCount rendered : Int) ∧
          (wh = 0 ∨ (contentLineCount rendered : Int) < wh)) := by
        intro h
        rcases h.2 with h' | h'
        · omega
        · omega
      rw [if_neg hc]
      have : ¬ wh < 1 := by omega
      rw [if_neg this]
      omega
  · intro wh ph rendered
    simp only [resizeViewport]
    split
    · omega
    · omega
  · intro renderOutput
    have hdata : (appendChunkRendered renderOutput).data =
        (trimRightSpace renderOutput).data ++ ['\n'] := by
      simp [appendChunkRendered, String.data_append]
    have hne : ¬ appendChunkRendered renderOutput = "" := by
      intro h
      have := congrArg String.data h
      rw [hdata] at this
      simp at this
    have h1 : List.count '\n' ['\n'] = 1 := by decide
    simp only [contentLineCount, if_neg hne, hdata, List.count_append, h1]
    push_cast
    omega

/-- Proof-of-life for C7 (amended) at a concrete state: window height 5,
rendered content of 3 lines; the viewport is resized to 3 = min 5 3. -/
theorem resizeViewport_min_rule_witness :
    resizeViewport 5 0 "a\nb\nc\n" = 3 := by
  rw [resizeViewport_min_rule.1 5 0 "a\nb\nc\n" (by decide) (by decide)]
  decide

/-! ## Loader animation (internal/loader.go)

Wall-clock instants and durations are nanoseconds as `Int` (Go's
`time.Time`/`time.Duration`); each `update` tick receives the current
instant `now` explicitly, and the shared RNG is an oracle `pick`
supplying the glyph index drawn by each cell. Runes are code points as
`Int` so that the unset sentinel `-1` of `finalValue` is expressible;
`46` is `'.'` and `32` is `' '`. -/

/-- `loaderCharCyclingCount`: animated cells per frame. -/
def loaderCharCyclingCount : Nat := 30

/-- `loaderInitialBoost` (200ms) in nanoseconds. -/
def loaderInitialBoost : Int := 200000000

/-- The `minVisible` duration `newLoader` installs (350ms) in nanoseconds. -/
def loaderMinVisible : Int := 350000000

/-- The glyph alphabet `loaderRunes`, as code points. -/
def loaderRunes : List Int :=
  "0123456789abcdefABCDEF~!@#$%^&*()+=_".toList.map fun c => (c.toNat : Int)

/-- Lifecycle of one animated cell (`loaderState`). -/
inductive LoaderCharState where
  | initial
  | cycling
  | settled
  deriving DecidableEq, Repr

/-- `loaderChar`. -/
structure LoaderChar where
  finalValue : Int
  currentValue : Int
  initialDelay : Int
  lifetime : Int
  deriving DecidableEq, Repr

/-- `loaderChar.state`: warming up before `initialDelay`, settled once a
positive `finalValue` and `lifetime` are both set and the lifetime has
passed, cycling otherwise. `now` stands for the `time.Now()` call. -/
def LoaderChar.state (c : LoaderChar) (start now : Int) : LoaderCharState :=
  if now < start + c.initialDelay then .initial
  else if 0 < c.finalValue ∧ 0 < c.lifetime ∧ start + c.initialDelay + c.lifetime < now then
    .settled
  else .cycling

/-- The `loader` struct. -/
structure Loader where
  start : Int
  displayStart : Int
  active : Bool
  shouldStop : Bool
  minVisible : Int
  cyclingChars : List LoaderChar
  ellipsisFrames : List (List Int)
  ellipsisIdx : Nat
  lastWidth : Nat
  deriving DecidableEq, Repr

/-- `loader.update`: advance every cell according to its timing state
(filler dot while initial, a fresh RNG glyph while cycling, the frozen
final value once settled), then deactivate once a stop was requested
and `minVisible` has elapsed since `displayStart`. The tick's
`time.Now()` readings are modelled by the single instant `now`; cell
`i`'s RNG draw is `pick i`, reduced into range as `Intn` guarantees. -/
def Loader.update (l : Loader) (now : Int) (pick : Nat → Nat) : Loader :=
  if !l.active then l
  else
    let chars := l.cyclingChars.enum.map fun p =>
      match p.2.state l.start now with
      | .initial => { p.2 with currentValue := 46 }
      | .cycling =>
        { p.2 with currentValue := loaderRunes.getD (pick p.1 % loaderRunes.length) 0 }
      | .settled => { p.2 with currentValue := p.2.finalValue }
    let l1 := { l with cyclingChars := chars }
    if l1.shouldStop ∧ l1.minVisible ≤ now - l1.displayStart then
      { l1 with active := false }
    else l1

/-- `loader.requestStop`: only arms the stop flag. -/
def Loader.requestStop (l : Loader) : Loader := { l with shouldStop := true }

/-- `loader.advanceEllipsis`: rotate the ellipsis frame while active. -/
def Loader.advanceEllipsis (l : Loader) : Loader :=
  if !l.active then l
  else { l with ellipsisIdx := (l.ellipsisIdx + 1) % l.ellipsisFrames.length }

/-- `newLoader`: thirty cells with no final value and RNG initial delays
(Go draws from {0,40,80}ms; the oracle `delays` supplies them), the
animation reference `start` boosted into the past, `displayStart` the
creation instant `now`, then one priming `update`. -/
def newLoader (now : Int) (delays : Nat → Int) (pick : Nat → Nat) : Loader :=
  let cycling := (List.range loaderCharCyclingCount).map fun i =>
    { finalValue := -1, currentValue := 0, initialDelay := delays i, lifetime := 0 }
  let l : Loader :=
    { start := now - loaderInitialBoost
      displayStart := now
      active := true
      shouldStop := false
      minVisible := loaderMinVisible
      cyclingChars := cycling
      ellipsisFrames := [[], [46], [46, 46], [46, 46, 46]]
      ellipsisIdx := 0
      lastWidth := 0 }
  l.update now pick

/-- Is the code point whitespace for `strings.TrimSpace`? -/
def isSpaceRune (r : Int) : Bool :=
  r = 32 || r = 9 || r = 10 || r = 13 || r = 11 || r = 12

/-- `strings.TrimSpace` on a rune sequence. -/
def trimSpaceRunes (rs : List Int) : List Int :=
  ((rs.dropWhile isSpaceRune).reverse.dropWhile isSpaceRune).reverse

/-- The text `loader.View` renders before the width compensation:
the non-zero cell glyphs (a dot fallback when empty after trimming),
a space, and the current ellipsis frame. -/
def Loader.viewText (l : Loader) : List Int :=
  let random := (l.cyclingChars.filter fun c => c.currentValue != 0).map (·.currentValue)
  let randomText := trimSpaceRunes random
  let randomText :=
    if randomText.isEmpty then List.replicate (loaderCharCyclingCount / 2) 46
    else randomText
  randomText ++ [32] ++ l.ellipsisFrames.getD l.ellipsisIdx []

/-- `loader.View`: render the frame and remember the widest frame so far
in `lastWidth`, padding with spaces when the fresh frame is narrower. -/
def Loader.View (l : Loader) : List Int × Loader :=
  let text := l.viewText
  let width := text.length
  if width < l.lastWidth then (text ++ List.replicate (l.lastWidth - width) 32, l)
  else (text, { l with lastWidth := width })

/-- One event delivered to the loader by the render loop. -/
inductive LoaderOp where
  | update (now : Int) (pick : Nat → Nat)
  | advanceEllipsis
  | requestStop
  | view

/-- Apply one event. -/
def Loader.applyOp (l : Loader) : LoaderOp → Loader
  | .update now pick => l.update now pick
  | .advanceEllipsis => l.advanceEllipsis
  | .requestStop => l.requestStop
  | .view => l.View.2

/-- Apply a sequence of events. -/
def Loader.applyOps (l : Loader) (ops : List LoaderOp) : Loader :=
  ops.foldl Loader.applyOp l

theorem Loader.update_fixed (l : Loader) (now : Int) (pick : Nat → Nat) :
    (l.update now pick).displayStart = l.displayStart ∧
    (l.update now pick).minVisible = l.minVisible ∧
    (l.update now pick).lastWidth = l.lastWidth := by
  unfold Loader.update
  by_cases ha : l.active
  · simp only [ha, Bool.not_true, Bool.false_eq_true, if_false]
    split <;> simp
  · simp [ha]

theorem Loader.update_active_early (l : Loader) (now : Int) (pick : Nat → Nat)
    (ha : l.active = true) (hlt : now - l.displayStart < l.minVisible) :
    (l.update now pick).active = true := by
  unfold Loader.update
  simp only [ha, Bool.not_true, Bool.false_eq_true, if_false]
  split
  · rename _ ∧ _ => hcond
    obtain ⟨-, h2⟩ := hcond
    omega
  · simp [ha]

theorem Loader.advanceEllipsis_fixed (l : Loader) :
    (l.advanceEllipsis).active = l.active ∧
    (l.advanceEllipsis).displayStart = l.displayStart ∧
    (l.advanceEllipsis).minVisible = l.minVisible ∧
    (l.advanceEllipsis).lastWidth = l.lastWidth := by
  unfold Loader.advanceEllipsis
  split <;> simp

theorem Loader.requestStop_fixed (l : Loader) :
    (l.requestStop).active = l.active ∧
    (l.requestStop).displayStart = l.displayStart ∧
    (l.requestStop).minVisible = l.minVisible ∧
    (l.requestStop).lastWidth = l.lastWidth := by
  simp [Loader.requestStop]

theorem Loader.View_snd_fixed (l : Loader) :
    (l.View.2).active = l.active ∧
    (l.View.2).displayStart = l.displayStart ∧
    (l.View.2).minVisible = l.minVisible := by
  unfold Loader.View
  by_cases hw : l.viewText.length < l.lastWidth <;> simp [hw]

theorem Loader.applyOps_active_early (t0 : Int) (ops : List LoaderOp)
    (h : ∀ (now : Int) (pk : Nat → Nat), LoaderOp.update now pk ∈ ops →
      now - t0 < loaderMinVisible) :
    ∀ l : Loader, l.active = true → l.displayStart = t0 →
      l.minVisible = loaderMinVisible →
      (l.applyOps ops).active = true ∧ (l.applyOps ops).displayStart = t0 ∧
        (l.applyOps ops).minVisible = loaderMinVisible := by
  induction ops with
  | nil => intro l ha hd hm; exact ⟨ha, hd, hm⟩
  | cons op rest ih =>
    intro l ha hd hm
    have hrest : ∀ (now : Int) (pk : Nat → Nat), LoaderOp.update now pk ∈ rest →
        now - t0 < loaderMinVisible := fun now pk hmem => h now pk (by simp [hmem])
    have hstep : (l.applyOp op).active = true ∧ (l.applyOp op).displayStart = t0 ∧
        (l.applyOp op).minVisible = loaderMinVisible := by
      cases op with
      | update now pk =>
        have hfix := Loader.update_fixed l now pk
        have hnow : now - t0 < loaderMinVisible := h now pk (by simp)
        simp only [Loader.applyOp]
        refine ⟨Loader.update_active_early l now pk ha ?_, by rw [hfix.1, hd],
          by rw [hfix.2.1, hm]⟩
        rw [hd, hm]
        exact hnow
      | advanceEllipsis =>
        have hfix := Loader.advanceEllipsis_fixed l
        simp only [Loader.applyOp]
        exact ⟨by rw [hfix.1, ha], by rw [hfix.2.1, hd], by rw [hfix.2.2.1, hm]⟩
      | requestStop =>
        have hfix := Loader.requestStop_fixed l
        simp only [Loader.applyOp]
        exact ⟨by rw [hfix.1, ha], by rw [hfix.2.1, hd], by rw [hfix.2.2.1, hm]⟩
      | view =>
        have hfix := Loader.View_snd_fixed l
        simp only [Loader.applyOp]
        exact ⟨by rw [hfix.1, ha], by rw [hfix.2.1, hd], by rw [hfix.2.2, hm]⟩
    have : Loader.applyOps l (op :: rest) = Loader.applyOps (l.applyOp op) rest := by
      simp [Loader.applyOps]
    rw [this]
    exact ih hrest (l.applyOp op) hstep.1 hstep.2.1 hstep.2.2

theorem newLoader_fields (t0 : Int) (delays : Nat → Int) (pick : Nat → Nat) :
    (newLoader t0 delays pick).active = true ∧
    (newLoader t0 delays pick).displayStart = t0 ∧
    (newLoader t0 delays pick).minVisible = loaderMinVisible := by
  unfold newLoader
  refine ⟨Loader.update_active_early _ t0 pick rfl ?_, ?_, ?_⟩
  · simp only
    unfold loaderMinVisible
    omega
  · exact (Loader.update_fixed _ t0 pick).1
  · exact (Loader.update_fixed _ t0 pick).2.1

/-- C5: however `requestStop` calls are interleaved with the other events
(including a stop issued immediately at creation), every `update` tick
delivered strictly before `minVisible` (350ms) has elapsed since
`displayStart` leaves the loader active: the loader is never
deactivated by such a trace of early ticks. -/
theorem loader_min_visible (t0 : Int) (delays : Nat → Int) (pick : Nat → Nat)
    (ops : List LoaderOp)
    (h : ∀ (now : Int) (pk : Nat → Nat), LoaderOp.update now pk ∈ ops →
      now - t0 < loaderMinVisible) :
    ((newLoader t0 delays pick).applyOps ops).active = true := by
  have hf := newLoader_fields t0 delays pick
  exact (Loader.applyOps_active_early t0 ops h _ hf.1 hf.2.1 hf.2.2).1

/-- Proof-of-life for C5: stop requested immediately after creation at
instant 0, then ticks at 100ms and 349.999999ms; the loader is still
active. -/
theorem loader_min_visible_witness :
    ((newLoader 0 (fun _ => 0) (fun _ => 0)).applyOps
      [LoaderOp.requestStop, LoaderOp.update 100000000 (fun _ => 1),
        LoaderOp.view, LoaderOp.update 349999999 (fun _ => 2)]).active = true := by
  refine loader_min_visible 0 (fun _ => 0) (fun _ => 0) _ ?_
  intro now pk hmem
  simp only [List.mem_cons, List.not_mem_nil, or_false] at hmem
  rcases hmem with h | h | h | h
  · cases h
  · cases h
    unfold loaderMinVisible
    omega
  · cases h
  · cases h
    unfold loaderMinVisible
    omega

/-- C9: `requestStop` only sets the stop flag, and calling it any number
of times (one or more) leaves the loader in exactly the state of a
single call. -/
theorem requestStop_idempotent :
    (∀ l : Loader, l.requestStop = { l with shouldStop := true }) ∧
    (∀ (n : Nat) (l : Loader), 1 ≤ n →
      Loader.requestStop^[n] l = l.requestStop) := by
  constructor
  · intro l; rfl
  · intro n
    induction n with
    | zero => intro l h; omega
    | succ k ih =>
      intro l _
      rw [Function.iterate_succ_apply]
      rcases Nat.eq_zero_or_pos k with hk | hk
      · subst hk; simp
      · rw [ih l.requestStop hk]
        simp [Loader.requestStop]

/-- Proof-of-life for C9: three stop requests on a freshly created loader
equal a single one. -/
theorem requestStop_idempotent_witness :
    Loader.requestStop^[3] (newLoader 0 (fun _ => 0) (fun _ => 0)) =
      (newLoader 0 (fun _ => 0) (fun _ => 0)).requestStop :=
  requestStop_idempotent.2 3 (newLoader 0 (fun _ => 0) (fun _ => 0)) (by omega)

theorem Loader.applyOp_inactive_active (l : Loader) (op : LoaderOp)
    (ha : l.active = false) : (l.applyOp op).active = false := by
  cases op with
  | update now pk =>
    have : l.update now pk = l := by simp [Loader.update, ha]
    simp [Loader.applyOp, this, ha]
  | advanceEllipsis =>
    have : l.advanceEllipsis = l := by simp [Loader.advanceEllipsis, ha]
    simp [Loader.applyOp, this, ha]
  | requestStop => simp [Loader.applyOp, Loader.requestStop, ha]
  | view => simp [Loader.applyOp, (Loader.View_snd_fixed l).1, ha]

/-- C10: a deactivated loader is frozen — `update` and `advanceEllipsis`
return the state unchanged — and no event of the render loop (tick,
ellipsis tick, stop request, or frame render) ever reactivates it. -/
theorem loader_inactive_frozen :
    (∀ (l : Loader) (now : Int) (pick : Nat → Nat), l.active = false →
      l.update now pick = l ∧ l.advanceEllipsis = l) ∧
    (∀ (l : Loader) (ops : List LoaderOp), l.active = false →
      (l.applyOps ops).active = false) := by
  constructor
  · intro l now pick ha
    exact ⟨by simp [Loader.update, ha], by simp [Loader.advanceEllipsis, ha]⟩
  · intro l ops
    induction ops generalizing l with
    | nil => intro ha; exact ha
    | cons op rest ih =>
      intro ha
      have : Loader.applyOps l (op :: rest) = Loader.applyOps (l.applyOp op) rest := by
        simp [Loader.applyOps]
      rw [this]
      exact ih _ (Loader.applyOp_inactive_active l op ha)

/-- A concrete deactivated loader, for the C10 proof-of-life. -/
def inactiveLoaderDemo : Loader where
  start := 0
  displayStart := 0
  active := false
  shouldStop := true
  minVisible := loaderMinVisible
  cyclingChars := []
  ellipsisFrames := [[], [46]]
  ellipsisIdx := 0
  lastWidth := 5

/-- Proof-of-life for C10: a deactivated loader is unchanged by a tick and
stays inactive across a mixed trace of events. -/
theorem loader_inactive_frozen_witness :
    Loader.update inactiveLoaderDemo 500000000 (fun _ => 0) = inactiveLoaderDemo ∧
    (Loader.applyOps inactiveLoaderDemo
        [LoaderOp.requestStop, LoaderOp.view,
          LoaderOp.update 600000000 (fun _ => 3), LoaderOp.advanceEllipsis]).active
      = false :=
  ⟨(loader_inactive_frozen.1 inactiveLoaderDemo 500000000 (fun _ => 0) rfl).1,
    loader_inactive_frozen.2 inactiveLoaderDemo _ rfl⟩

theorem Loader.View_fst_length (l : Loader) :
    (l.View.1).length = (l.View.2).lastWidth := by
  unfold Loader.View
  by_cases hw : l.viewText.length < l.lastWidth
  · simp only [hw, if_true]
    simp
    omega
  · simp [hw]

theorem Loader.View_lastWidth_le (l : Loader) :
    l.lastWidth ≤ (l.View.2).lastWidth := by
  unfold Loader.View
  by_cases hw : l.viewText.length < l.lastWidth
  · simp [hw]
  · simp only [hw, if_false]
    omega

theorem Loader.applyOp_lastWidth_le (l : Loader) (op : LoaderOp) :
    l.lastWidth ≤ (l.applyOp op).lastWidth := by
  cases op with
  | update now pk =>
    simp [Loader.applyOp, (Loader.update_fixed l now pk).2.2]
  | advanceEllipsis =>
    simp [Loader.applyOp, (Loader.advanceEllipsis_fixed l).2.2.2]
  | requestStop =>
    simp [Loader.applyOp, (Loader.requestStop_fixed l).2.2.2]
  | view =>
    simp only [Loader.applyOp]
    exact Loader.View_lastWidth_le l

theorem Loader.applyOps_lastWidth_le (ops : List LoaderOp) :
    ∀ l : Loader, l.lastWidth ≤ (l.applyOps ops).lastWidth := by
  induction ops with
  | nil => intro l; simp [Loader.applyOps]
  | cons op rest ih =>
    intro l
    have hstep : Loader.applyOps l (op :: rest) = Loader.applyOps (l.applyOp op) rest := by
      simp [Loader.applyOps]
    rw [hstep]
    exact le_trans (Loader.applyOp_lastWidth_le l op) (ih (l.applyOp op))

/-- C8: the rendered width of `View` never decreases across successive
frames, whatever events occur in between; when the freshly rendered
text is narrower than the widest previous frame (`lastWidth`), `View`
pads it with trailing spaces to that previous width. -/
theorem loader_view_width_monotone :
    (∀ (l : Loader) (ops : List LoaderOp),
      (l.View.1).length ≤ (((l.View.2).applyOps ops).View.1).length) ∧
    (∀ l : Loader, l.viewText.length < l.lastWidth →
      l.View.1 = l.viewText ++ List.replicate (l.lastWidth - l.viewText.length) 32) := by
  constructor
  · intro l ops
    have h1 := Loader.View_fst_length l
    have h2 := Loader.applyOps_lastWidth_le ops l.View.2
    have h3 := Loader.View_lastWidth_le ((l.View.2).applyOps ops)
    have h4 := Loader.View_fst_length ((l.View.2).applyOps ops)
    omega
  · intro l hw
    unfold Loader.View
    simp [hw]

/-- A concrete loader whose previous widest frame (40 columns) exceeds
the fresh frame, for the C8 proof-of-life. -/
def wideLoaderDemo : Loader where
  start := 0
  displayStart := 0
  active := true
  shouldStop := false
  minVisible := loaderMinVisible
  cyclingChars := List.replicate loaderCharCyclingCount
    { finalValue := -1, currentValue := 0, initialDelay := 0, lifetime := 0 }
  ellipsisFrames := [[], [46], [46, 46], [46, 46, 46]]
  ellipsisIdx := 0
  lastWidth := 40

/-- Proof-of-life for C8: the demo loader's fresh frame (16 runes) is
padded with 24 trailing spaces to the previous width of 40. -/
theorem loader_view_width_monotone_witness :
    wideLoaderDemo.View.1 =
      wideLoaderDemo.viewText ++
        List.replicate (wideLoaderDemo.lastWidth - wideLoaderDemo.viewText.length) 32 :=
  loader_view_width_monotone.2 wideLoaderDemo (by decide)

end Openai
